import Mathlib

set_option maxRecDepth 100000

/-!
Verification of the Tazapay VS Code assistant's Tool Invocation Service
(`src/out/mcpClient.js` and the parameter extractor in the extension entry
point).  The JavaScript is embedded shallowly: strings are Lean `String`s
(`List Char` backed), JS numbers are `ℚ`, JSON documents are an inductive
`Json`, and the per-call promise machinery of `executeTool` is modelled as a
function over an explicit trace of worker events.
-/

/-- ASCII model of JavaScript `String.prototype.toLowerCase`. -/
def jsToLower (s : String) : String :=
  ⟨s.data.map Char.toLower⟩

/-- ASCII model of JavaScript `String.prototype.toUpperCase`. -/
def jsToUpper (s : String) : String :=
  ⟨s.data.map Char.toUpper⟩

/-- `startsWithL hay nd` : does `hay` start with `nd`? -/
def startsWithL : List Char → List Char → Bool
  | _, [] => true
  | [], _ :: _ => false
  | a :: as, b :: bs => a == b && startsWithL as bs

/-- `containsL hay nd` : does `nd` occur as a contiguous run inside `hay`?
Model of JavaScript `String.prototype.includes`. -/
def containsL : List Char → List Char → Bool
  | [], nd => startsWithL [] nd
  | a :: as, nd => startsWithL (a :: as) nd || containsL as nd

/-- JavaScript `hay.includes(nd)` on Lean strings. -/
def jsIncludes (hay nd : String) : Bool :=
  containsL hay.data nd.data

/-- Whitespace recognised by JavaScript `String.prototype.trim` (ASCII part). -/
def jsWs (c : Char) : Bool :=
  match c with
  | ' ' | '\t' | '\n' | '\r' => true
  | _ => false

/-- Model of JavaScript `String.prototype.trim`. -/
def jsTrim (s : String) : String :=
  ⟨(s.data.dropWhile jsWs).reverse.dropWhile jsWs |>.reverse⟩

/-- Split a character list at newline characters (JavaScript `split('\n')`). -/
def splitNlL : List Char → List (List Char)
  | [] => [[]]
  | c :: cs =>
    let rest := splitNlL cs
    if c == '\n' then [] :: rest
    else match rest with
      | [] => [[c]]
      | l :: ls => (c :: l) :: ls

/-- JavaScript `s.split('\n')`. -/
def jsSplitNl (s : String) : List String :=
  (splitNlL s.data).map (fun l => ⟨l⟩)

/-- JSON documents, as produced by `JSON.parse`.  JavaScript numbers are
modelled as rationals (every double produced by parsing a JSON numeral is a
terminating decimal, hence a rational). -/
inductive Json where
  | null : Json
  | bool (b : Bool) : Json
  | num (q : ℚ) : Json
  | str (s : String) : Json
  | arr (elems : List Json) : Json
  | obj (fields : List (String × Json)) : Json

/-- Numeric value of a decimal digit string. -/
def digitsToNat (ds : List Char) : ℕ :=
  ds.foldl (fun n c => 10 * n + (c.toNat - '0'.toNat)) 0

/-- Hexadecimal digit value, for `\uXXXX` escapes (code-point arithmetic:
`0-9` are 48-57, `a-f` are 97-102, `A-F` are 65-70). -/
def hexVal (c : Char) : Option ℕ :=
  let n := c.toNat
  if 48 ≤ n && n ≤ 57 then some (n - 48)
  else if 97 ≤ n && n ≤ 102 then some (n - 87)
  else if 65 ≤ n && n ≤ 70 then some (n - 55)
  else none

/-- The rational `m * 10^e` for an integer mantissa and decimal exponent.
Core `mkRat` is used throughout so that terms reduce inside `decide`. -/
def decimalToRat (m : ℤ) (e : ℤ) : ℚ :=
  if 0 ≤ e then mkRat (m * Int.ofNat (10 ^ e.toNat)) 1
  else mkRat m (10 ^ (-e).toNat)

/-- A natural number as a rational. -/
def natToRat (n : ℕ) : ℚ :=
  mkRat (Int.ofNat n) 1

/-- Optional fraction part of a JSON numeral (`.digits`), as the digit list. -/
def parseFrac : List Char → Option (List Char × List Char)
  | '.' :: r =>
    let fd := r.takeWhile Char.isDigit
    if fd.isEmpty then none
    else some (fd, r.dropWhile Char.isDigit)
  | cs => some ([], cs)

/-- Optional exponent part of a JSON numeral (`[eE][+-]?digits`). -/
def parseExp : List Char → Option (ℤ × List Char)
  | c :: r =>
    if c == 'e' || c == 'E' then
      let sr : Bool × List Char :=
        match r with
        | '+' :: t => (false, t)
        | '-' :: t => (true, t)
        | t => (false, t)
      let ed := sr.2.takeWhile Char.isDigit
      if ed.isEmpty then none
      else
        let mag : ℤ := Int.ofNat (digitsToNat ed)
        some (if sr.1 then -mag else mag, sr.2.dropWhile Char.isDigit)
    else some (0, c :: r)
  | [] => some (0, [])

/-- A JSON numeral: `-? (0 | [1-9][0-9]*) frac? exp?` (leading zeros refused,
as in `JSON.parse`).  The value is `± (ip.fd) * 10^e`, assembled as an exact
rational. -/
def parseNumber (cs : List Char) : Option (ℚ × List Char) :=
  let sgn : Bool × List Char := match cs with | '-' :: r => (true, r) | _ => (false, cs)
  let ip := sgn.2.takeWhile Char.isDigit
  let r1 := sgn.2.dropWhile Char.isDigit
  if ip.isEmpty then none
  else if decide (1 < ip.length) && (ip.head? == some '0') then none
  else
    match parseFrac r1 with
    | none => none
    | some (fd, r2) =>
      match parseExp r2 with
      | none => none
      | some (e, r3) =>
        let mantissa : ℤ := Int.ofNat (digitsToNat ip * 10 ^ fd.length + digitsToNat fd)
        let m : ℤ := if sgn.1 then -mantissa else mantissa
        some (decimalToRat m (e - Int.ofNat fd.length), r3)

/-- Body of a JSON string literal after the opening quote; returns the decoded
characters and the input following the closing quote.  Unescaped control
characters are refused, as in `JSON.parse`. -/
def parseStringBody : ℕ → List Char → Option (List Char × List Char)
  | 0, _ => none
  | f + 1, cs =>
    match cs with
    | [] => none
    | '"' :: rest => some ([], rest)
    | '\\' :: rest =>
      match rest with
      | [] => none
      | e :: r =>
        let dec : Option (Char × List Char) :=
          if e == '"' then some ('"', r)
          else if e == '\\' then some ('\\', r)
          else if e == '/' then some ('/', r)
          else if e == 'b' then some (Char.ofNat 8, r)
          else if e == 'f' then some (Char.ofNat 12, r)
          else if e == 'n' then some ('\n', r)
          else if e == 'r' then some ('\r', r)
          else if e == 't' then some ('\t', r)
          else if e == 'u' then
            match r with
            | a :: b :: c :: d :: r' =>
              match hexVal a, hexVal b, hexVal c, hexVal d with
              | some va, some vb, some vc, some vd =>
                some (Char.ofNat (va * 4096 + vb * 256 + vc * 16 + vd), r')
              | _, _, _, _ => none
            | _ => none
          else none
        match dec with
        | none => none
        | some (c, r') =>
          match parseStringBody f r' with
          | some (s, r'') => some (c :: s, r'')
          | none => none
    | c :: rest =>
      if c.toNat < 32 then none
      else
        match parseStringBody f rest with
        | some (s, r') => some (c :: s, r')
        | none => none

/-- JSON whitespace (space, tab, line feed, carriage return). -/
def jsonWs (c : Char) : Bool :=
  match c with
  | ' ' | '\t' | '\n' | '\r' => true
  | _ => false

/-- Drop leading JSON whitespace. -/
def skipWs (cs : List Char) : List Char :=
  cs.dropWhile jsonWs

/-- Recursive-descent parsing state: a value, the items of a (non-empty)
array, or the members of a (non-empty) object. -/
inductive PMode where
  | val : PMode
  | items (acc : List Json) : PMode
  | members (acc : List (String × Json)) : PMode

/-- One fuel-indexed recursive-descent parser covering values, array items and
object members (structural recursion on the fuel, so that applications reduce
definitionally). -/
def parseStep : ℕ → PMode → List Char → Option (Json × List Char)
  | 0, _, _ => none
  | f + 1, .val, cs =>
    (match skipWs cs with
     | '{' :: rest =>
       (match skipWs rest with
        | '}' :: r => some (Json.obj [], r)
        | _ => parseStep f (.members []) rest)
     | '[' :: rest =>
       (match skipWs rest with
        | ']' :: r => some (Json.arr [], r)
        | _ => parseStep f (.items []) rest)
     | '"' :: rest =>
       (match parseStringBody (rest.length + 1) rest with
        | some (s, r) => some (Json.str ⟨s⟩, r)
        | none => none)
     | 't' :: 'r' :: 'u' :: 'e' :: r => some (Json.bool true, r)
     | 'f' :: 'a' :: 'l' :: 's' :: 'e' :: r => some (Json.bool false, r)
     | 'n' :: 'u' :: 'l' :: 'l' :: r => some (Json.null, r)
     | other =>
       (match parseNumber other with
        | some (q, r) => some (Json.num q, r)
        | none => none))
  | f + 1, .items acc, cs =>
    (match parseStep f .val cs with
     | some (j, rest) =>
       (match skipWs rest with
        | ',' :: r => parseStep f (.items (j :: acc)) r
        | ']' :: r => some (Json.arr (j :: acc).reverse, r)
        | _ => none)
     | none => none)
  | f + 1, .members acc, cs =>
    (match skipWs cs with
     | '"' :: rest =>
       (match parseStringBody (rest.length + 1) rest with
        | some (k, r1) =>
          (match skipWs r1 with
           | ':' :: r2 =>
             (match parseStep f .val r2 with
              | some (v, r3) =>
                (match skipWs r3 with
                 | ',' :: r4 => parseStep f (.members ((⟨k⟩, v) :: acc)) r4
                 | '}' :: r4 => some (Json.obj ((⟨k⟩, v) :: acc).reverse, r4)
                 | _ => none)
              | none => none)
           | _ => none)
        | none => none)
     | _ => none)

/-- Model of `JSON.parse` (a thrown `SyntaxError` is `none`).  The fuel
`2 * length + 4` dominates the recursion depth, which grows by at most two
per consumed character. -/
def jsonParse (s : String) : Option Json :=
  match parseStep (2 * s.data.length + 4) .val s.data with
  | some (j, rest) => if (skipWs rest).isEmpty then some j else none
  | none => none

/-- Last binding of a key in a parsed object (later duplicates win, as in
`JSON.parse`). -/
def fieldLookup (fs : List (String × Json)) (key : String) : Option Json :=
  fs.foldl (fun acc kv => if kv.1 == key then some kv.2 else acc) none

/-- JavaScript property access `o.key`; `none` plays `undefined`. -/
def Json.lookup : Json → String → Option Json
  | .obj fs, key => fieldLookup fs key
  | _, _ => none

/-- JavaScript truthiness of a possibly-absent JSON value. -/
def jsTruthy : Option Json → Bool
  | none => false
  | some .null => false
  | some (.bool b) => b
  | some (.num q) => q.num != 0
  | some (.str s) => s != ""
  | some (.arr _) => true
  | some (.obj _) => true

/-- Numeric field of a JSON object, when present and a number. -/
def numField (j : Json) (k : String) : Option ℚ :=
  match j.lookup k with
  | some (.num q) => some q
  | _ => none

/-- String field of a JSON object, when present and a string. -/
def strField (j : Json) (k : String) : Option String :=
  match j.lookup k with
  | some (.str s) => some s
  | _ => none

/-- Whether a string is accepted by `JSON.parse`. -/
def jsonOk (s : String) : Bool :=
  (jsonParse s).isSome


/-- A discovered tool.  The source objects also carry an `inputSchema`; none
of the operations modelled here (`findRelevantTools`,
`extractParametersFromMessage`, `executeTool`, `handleMCPMessage`) ever reads
it, so the model omits it. -/
structure Tool where
  name : String
  description : String
deriving DecidableEq, Repr

/-- View of a parsed JSON tool object as a `Tool` (absent fields behave as
empty; in the source an absent `name` would instead crash later accesses). -/
def toolOfJson (j : Json) : Tool :=
  { name := (strField j "name").getD ""
    description := (strField j "description").getD "" }

/-- `message.result.tools || []`: the `tools` array of a discovery result; a
non-array (which would poison the registry in the source and occurs in no
claim) and a missing field both give `[]`. -/
def toolsOfResult (r : Json) : List Tool :=
  match r.lookup "tools" with
  | some (.arr ts) => ts.map toolOfJson
  | _ => []

/-- `handleMCPMessage`: only a frame with `method === 'tools/list'` and a
truthy `result` replaces the tool set. -/
def handleMCPMessage (tools : List Tool) (message : Json) : List Tool :=
  if (match message.lookup "method" with
      | some (.str m) => m == "tools/list"
      | _ => false)
      && jsTruthy (message.lookup "result") then
    match message.lookup "result" with
    | some r => toolsOfResult r
    | none => tools
  else tools

/-- The per-line loop of `handleMCPOutput`.  The `try` wraps the whole loop,
so the first line that `JSON.parse` rejects aborts the remaining lines of the
chunk (the catch only logs). -/
def processLines (tools : List Tool) : List String → List Tool
  | [] => tools
  | l :: ls =>
    if jsTrim l == "" then processLines tools ls
    else
      match jsonParse l with
      | none => tools
      | some m => processLines (handleMCPMessage tools m) ls

/-- `handleMCPOutput`: trim the chunk, split at newlines, and route each
non-blank line. -/
def handleMCPOutput (tools : List Tool) (data : String) : List Tool :=
  processLines tools (jsSplitNl (jsTrim data))

/-- The hard-coded tool list that `discoverTools` substitutes without awaiting
the worker's discovery response (names and descriptions from the source). -/
def fallbackTools : List Tool :=
  [ { name := "create_payment", description := "Create a new payment transaction" },
    { name := "get_payment_status", description := "Get the status of a payment" },
    { name := "get_account_balance", description := "Get account balance and available funds" },
    { name := "list_transactions", description := "List recent transactions" } ]

/-- Effect of `discoverTools` on the held tool set: it writes the discovery
request and then unconditionally replaces the set with `fallbackTools`. -/
def discoverTools (_tools : List Tool) : List Tool :=
  fallbackTools

/-- The discovery request sent by `discoverTools`. -/
def discoverRequest : Json :=
  Json.obj [("jsonrpc", .str "2.0"), ("id", .num (natToRat 1)), ("method", .str "tools/list")]

/-- The invocation request built by `executeTool`; `now` is the value of
`Date.now()` at the call. -/
def executeToolRequest (toolName : String) (parameters : Json) (now : ℕ) : Json :=
  Json.obj
    [("jsonrpc", .str "2.0"), ("id", .num (natToRat now)), ("method", .str "tools/call"),
     ("params", .obj [("name", .str toolName), ("arguments", parameters)])]

/-- The id a request frame carries, when it is a number. -/
def requestId (j : Json) : Option ℚ :=
  numField j "id"

/-- `lowerQuery.replace(/[^a-z0-9]/g, '')`. -/
def jsStripNonAlnum (s : String) : String :=
  ⟨s.data.filter (fun c => ('a' ≤ c && c ≤ 'z') || ('0' ≤ c && c ≤ '9'))⟩

/-- The exact-name tier of `findRelevantTools`: the lowercased tool name is a
substring of the lowercased query, or the lowercased name contains the
lowercased query with everything but `a-z0-9` stripped. -/
def exactNameTier (tools : List Tool) (query : String) : List Tool :=
  let lowerQuery := jsToLower query
  tools.filter (fun tool =>
    jsIncludes lowerQuery (jsToLower tool.name) ||
    jsIncludes (jsToLower tool.name) (jsStripNonAlnum lowerQuery))

/-- `isQueryRelevantToTool` (the keyword tier): fixed intent phrases for the
three named tools, then a catch-all for balance queries. -/
def isQueryRelevantToTool (query : String) (tool : Tool) : Bool :=
  if tool.name == "create_payment" then
    ["create payment", "make payment", "new payment", "send payment",
     "pay for", "payment for", "transfer money", "send money"].any
      (fun keyword => jsIncludes query keyword)
  else if tool.name == "get_payment_status" then
    ["payment status", "check payment", "status of payment",
     "payment state", "track payment", "payment progress"].any
      (fun keyword => jsIncludes query keyword)
  else if tool.name == "list_transactions" then
    ["list transactions", "show transactions", "my transactions",
     "transaction history", "recent transactions", "all transactions"].any
      (fun keyword => jsIncludes query keyword)
  else if jsIncludes query "balance" || jsIncludes query "account balance" then
    jsIncludes tool.name "balance" || jsIncludes (jsToLower tool.description) "balance"
  else false

/-- `findRelevantTools`: exact-name tier, then description tier, then the
keyword tier, each short-circuiting when non-empty. -/
def findRelevantTools (tools : List Tool) (query : String) : List Tool :=
  let lowerQuery := jsToLower query
  let exactMatches := exactNameTier tools query
  if exactMatches.isEmpty then
    let descriptionMatches := tools.filter (fun tool =>
      jsIncludes (jsToLower tool.description) lowerQuery ||
      jsIncludes lowerQuery (jsToLower tool.description))
    if descriptionMatches.isEmpty then
      tools.filter (fun tool => isQueryRelevantToTool lowerQuery tool)
    else descriptionMatches
  else exactMatches

/-- Environment variable name for the API key. -/
def apiKeyVar : String := "TAZAPAY_API_KEY"

/-- Environment variable name for the API secret. -/
def apiSecretVar : String := "TAZAPAY_API_SECRET"

/-- The worker's Docker image name. -/
def mcpDockerImage : String := "tazapay/tazapay-mcp-server:latest"

/-- The argument list `connect` passes to `spawn('docker', ...)`: the
credential values are embedded in the `-e NAME=value` arguments. -/
def connectSpawnArgs (apiKey secretKey : String) : List String :=
  ["run", "--rm", "-i",
   "-e", apiKeyVar ++ "=" ++ apiKey,
   "-e", apiSecretVar ++ "=" ++ secretKey,
   mcpDockerImage]

/-- The `args` array `_updateMCPServerConfig` stores in the VS Code `mcp`
configuration: variable names only, no credential values. -/
def mcpServerConfigArgs : List String :=
  ["run", "--rm", "-i", "-e", apiKeyVar, "-e", apiSecretVar, mcpDockerImage]

/-- The `env` map `_updateMCPServerConfig` stores alongside those args. -/
def mcpServerConfigEnv (apiKey secretKey : String) : List (String × String) :=
  [(apiKeyVar, apiKey), (apiSecretVar, secretKey)]

/-- Decimal digit string of a natural number. -/
def natDigitsStr (n : ℕ) : String :=
  ⟨Nat.toDigits 10 n⟩

/-- Decimal string of an integer. -/
def intStr : ℤ → String
  | .ofNat n => natDigitsStr n
  | .negSucc n => "-" ++ natDigitsStr (n + 1)

/-- Hexadecimal digit character. -/
def hexDigit (n : ℕ) : Char :=
  if n < 10 then Char.ofNat ('0'.toNat + n) else Char.ofNat ('a'.toNat + (n - 10))

/-- `JSON.stringify` escaping of one character. -/
def escChar (c : Char) : List Char :=
  if c == '"' then ['\\', '"']
  else if c == '\\' then ['\\', '\\']
  else if c == '\n' then ['\\', 'n']
  else if c == '\r' then ['\\', 'r']
  else if c == '\t' then ['\\', 't']
  else if c.toNat == 8 then ['\\', 'b']
  else if c.toNat == 12 then ['\\', 'f']
  else if c.toNat < 32 then ['\\', 'u', '0', '0', hexDigit (c.toNat / 16), hexDigit (c.toNat % 16)]
  else [c]

/-- A string as a quoted JSON string literal. -/
def jsonQuote (s : String) : String :=
  "\"" ++ ⟨(s.data.map escChar).flatten⟩ ++ "\""

/-- Decimal rendering of a rational, matching how JavaScript prints the
doubles that `JSON.parse` produces: integers without a point, other
terminating decimals with one.  (A denominator without a finite decimal
expansion cannot arise from parsed JSON; it is rendered `num/den`.) -/
def qStr (q : ℚ) : String :=
  if q.den == 1 then intStr q.num
  else
    match (List.range 40).find? (fun k => 10 ^ k % q.den == 0) with
    | some k =>
      let scaled := q.num.natAbs * (10 ^ k / q.den)
      let ip := scaled / 10 ^ k
      let fracDigits := Nat.toDigits 10 (scaled % 10 ^ k)
      let frac := List.replicate (k - fracDigits.length) '0' ++ fracDigits
      let frac := (frac.reverse.dropWhile (· == '0')).reverse
      (if q.num < 0 then "-" else "") ++ natDigitsStr ip ++ "." ++ ⟨frac⟩
    | none => intStr q.num ++ "/" ++ natDigitsStr q.den

/-- `2 * d` spaces, the indentation of `JSON.stringify(x, null, 2)` at
depth `d`. -/
def indentStr (d : ℕ) : String :=
  ⟨List.replicate (2 * d) ' '⟩

mutual

/-- `JSON.stringify(x, null, 2)` at nesting depth `d`. -/
def Json.pretty : Json → ℕ → String
  | .null, _ => "null"
  | .bool b, _ => if b then "true" else "false"
  | .num q, _ => qStr q
  | .str s, _ => jsonQuote s
  | .arr [], _ => "[]"
  | .arr (x :: xs), d => "[\n" ++ prettyItems (x :: xs) (d + 1) ++ "\n" ++ indentStr d ++ "]"
  | .obj [], _ => "\x7b\x7d"
  | .obj (f :: fs), d =>
    "\x7b\n" ++ prettyMembers (f :: fs) (d + 1) ++ "\n" ++ indentStr d ++ "\x7d"

/-- Array items of `Json.pretty`, one per line. -/
def prettyItems : List Json → ℕ → String
  | [], _ => ""
  | [x], d => indentStr d ++ Json.pretty x d
  | x :: y :: rest, d => indentStr d ++ Json.pretty x d ++ ",\n" ++ prettyItems (y :: rest) d

/-- Object members of `Json.pretty`, one per line. -/
def prettyMembers : List (String × Json) → ℕ → String
  | [], _ => ""
  | [(k, v)], d => indentStr d ++ jsonQuote k ++ ": " ++ Json.pretty v d
  | (k, v) :: m :: rest, d =>
    indentStr d ++ jsonQuote k ++ ": " ++ Json.pretty v d ++ ",\n" ++ prettyMembers (m :: rest) d

end

mutual

/-- `JSON.stringify(x)` (compact form, used for an `error` without a
`message`). -/
def Json.compact : Json → String
  | .null => "null"
  | .bool b => if b then "true" else "false"
  | .num q => qStr q
  | .str s => jsonQuote s
  | .arr xs => "[" ++ compactItems xs ++ "]"
  | .obj fs => "\x7b" ++ compactMembers fs ++ "\x7d"

/-- Array items of `Json.compact`. -/
def compactItems : List Json → String
  | [] => ""
  | [x] => Json.compact x
  | x :: y :: rest => Json.compact x ++ "," ++ compactItems (y :: rest)

/-- Object members of `Json.compact`. -/
def compactMembers : List (String × Json) → String
  | [] => ""
  | [(k, v)] => jsonQuote k ++ ":" ++ Json.compact v
  | (k, v) :: m :: rest => jsonQuote k ++ ":" ++ Json.compact v ++ "," ++ compactMembers (m :: rest)

end

/-- One `{type, text}` content item of a tool result. -/
structure ContentItem where
  type : String
  text : String
deriving DecidableEq, Repr

/-- The `{content, isError}` object `executeTool` resolves with.  A success
result carries no `isError` property in the source; reading it yields
`undefined`, i.e. `false`. -/
structure ToolResult where
  content : List ContentItem
  isError : Bool
deriving DecidableEq, Repr

/-- The timeout result (fixed 10-second message). -/
def timeoutResult (toolName : String) : ToolResult :=
  { content :=
      [{ type := "text",
         text := "⏱️ **Timeout executing " ++ toolName ++
           "**\n\nThe MCP server didn\x27t respond within 10 seconds. This might be because:\n- The server is still starting up\n- The tool is processing a complex request\n- There\x27s a connectivity issue\n\nPlease try again in a moment." }],
    isError := true }

/-- The result for a matching response frame with a truthy `result`. -/
def successResult (toolName : String) (result : Json) : ToolResult :=
  { content :=
      [{ type := "text",
         text := "**" ++ toolName ++ " completed**\n\n```json\n" ++
           Json.pretty result 0 ++ "\n```" }],
    isError := false }

/-- The result for a matching response frame with a truthy `error`
(`error.message || JSON.stringify(error)`). -/
def errorResponseResult (toolName : String) (err : Json) : ToolResult :=
  let msg :=
    match strField err "message" with
    | some m => if m == "" then Json.compact err else m
    | none => Json.compact err
  { content :=
      [{ type := "text", text := "❌ **Error executing " ++ toolName ++ "**\n\n" ++ msg }],
    isError := true }

/-- The result when `mcpProcess?.stdin` is unavailable. -/
def notAvailableResult (toolName : String) : ToolResult :=
  { content :=
      [{ type := "text",
         text := "❌ **MCP Server Not Available**\n\nCannot execute " ++ toolName ++
           " because the MCP server is not running.\n\nPlease ensure:\n- Docker is installed and running\n- Your credentials are configured\n- The MCP server image is available" }],
    isError := true }

/-- The result of the surrounding `catch` (`Error executing ${toolName}:
${error}`, where `${error}` prints as `Error: message`). -/
def caughtResult (toolName msg : String) : ToolResult :=
  { content :=
      [{ type := "text", text := "Error executing " ++ toolName ++ ": Error: " ++ msg }],
    isError := true }

/-- An observable worker event after a call is issued: a stdout chunk or a
process exit, with its time in milliseconds, listed in time order. -/
inductive WorkerEvent where
  | data (time : ℕ) (chunk : String)
  | exit (time : ℕ) (code : ℤ)
deriving DecidableEq, Repr

/-- What the per-call stdout listener finds in one chunk: the first frame
whose `id` strictly equals the request id, classified by the truthiness of
its `result` and `error`; `dead` is a matching frame with neither (it clears
the timer and detaches the listener without resolving). -/
inductive ScanHit where
  | success (result : Json)
  | failure (error : Json)
  | dead

/-- The response handler's per-line scan: skip blank lines, stop silently at
the first line `JSON.parse` rejects (the catch keeps waiting), stop at the
first matching frame. -/
def scanLines (tid : ℚ) : List String → Option ScanHit
  | [] => none
  | l :: ls =>
    if jsTrim l == "" then scanLines tid ls
    else
      match jsonParse l with
      | none => none
      | some response =>
        if (match response.lookup "id" with
            | some (.num q) => q == tid
            | _ => false) then
          some
            (if jsTruthy (response.lookup "result") then
              .success ((response.lookup "result").getD .null)
            else if jsTruthy (response.lookup "error") then
              .failure ((response.lookup "error").getD .null)
            else .dead)
        else scanLines tid ls

/-- The response handler's scan of one raw chunk (split at newlines; no trim
before the split on this path). -/
def scanChunk (tid : ℚ) (chunk : String) : Option ScanHit :=
  scanLines tid (jsSplitNl chunk)

/-- Resolution of one in-flight `executeTool` call over a time-ordered event
trace: `some (result, time)` when the promise resolves, `none` when it never
does (a pre-deadline matching frame with neither `result` nor `error`).  The
`close` handler never touches the pending promise, so exits are skipped; a
chunk at or after the deadline arrives with the timer already fired. -/
def runCall (toolName : String) (tid : ℚ) (deadline : ℕ) :
    List WorkerEvent → Option (ToolResult × ℕ)
  | [] => some (timeoutResult toolName, deadline)
  | .exit _ _ :: rest => runCall toolName tid deadline rest
  | .data t chunk :: rest =>
    if t < deadline then
      match scanChunk tid chunk with
      | some (.success r) => some (successResult toolName r, t)
      | some (.failure e) => some (errorResponseResult toolName e, t)
      | some .dead => none
      | none => runCall toolName tid deadline rest
    else some (timeoutResult toolName, deadline)

/-- Client state visible to `executeTool`. -/
structure ClientState where
  isConnected : Bool
  tools : List Tool
  stdinAvailable : Bool

/-- `executeTool`: the early failure paths resolve immediately; otherwise the
request (id `Date.now()`, here `callTime`) is written and the call awaits the
first of a matching response frame and the fixed `10000` ms timer. -/
def executeTool (st : ClientState) (toolName : String) (_parameters : Json)
    (callTime : ℕ) (events : List WorkerEvent) : Option (ToolResult × ℕ) :=
  if st.isConnected = false then
    some (caughtResult toolName "MCP server not connected", callTime)
  else
    match st.tools.find? (fun t => t.name == toolName) with
    | none => some (caughtResult toolName ("Tool " ++ toolName ++ " not found"), callTime)
    | some _ =>
      if st.stdinAvailable = false then some (notAvailableResult toolName, callTime)
      else runCall toolName (natToRat callTime) (callTime + 10000) events

/-- Whether the trace contains, before any settling frame, a pre-deadline
matching frame with neither a truthy `result` nor a truthy `error` — the one
path on which the promise never resolves. -/
def deadHitEvents (tid : ℚ) (deadline : ℕ) : List WorkerEvent → Bool
  | [] => false
  | .exit _ _ :: rest => deadHitEvents tid deadline rest
  | .data t chunk :: rest =>
    if t < deadline then
      match scanChunk tid chunk with
      | some .dead => true
      | some _ => false
      | none => deadHitEvents tid deadline rest
    else false

/-- JavaScript `\w` (word character): `[A-Za-z0-9_]`. -/
def isWordChar (c : Char) : Bool :=
  (('A' ≤ c && c ≤ 'Z') || ('a' ≤ c && c ≤ 'z') || ('0' ≤ c && c ≤ '9')) || c == '_'

/-- Case-insensitive `startsWithL` (ASCII folding, as `jsToLower`). -/
def startsWithCI : List Char → List Char → Bool
  | _, [] => true
  | [], _ :: _ => false
  | a :: as, b :: bs => (a.toLower == b.toLower) && startsWithCI as bs

/-- One attempt of `/\$?(\d+(?:\.\d{2})?)/` at the current position: an
optional `$`, one or more digits, then optionally a point and exactly two
digits; the returned capture excludes the `$`. -/
def amountAt (cs : List Char) : Option (List Char) :=
  let cs1 := match cs with | '$' :: r => r | r => r
  let ds := cs1.takeWhile Char.isDigit
  if ds.isEmpty then none
  else
    match cs1.dropWhile Char.isDigit with
    | '.' :: a :: b :: _ => if a.isDigit && b.isDigit then some (ds ++ ['.', a, b]) else some ds
    | _ => some ds

/-- Leftmost match of the amount pattern (`message.match` tries each start
position left to right). -/
def matchAmount : List Char → Option (List Char)
  | [] => none
  | c :: rest =>
    match amountAt (c :: rest) with
    | some cap => some cap
    | none => matchAmount rest

/-- `parseFloat` on an amount capture (`digits` or `digits.dd`). -/
def parseFloatCap (cap : List Char) : ℚ :=
  let ip := cap.takeWhile Char.isDigit
  match cap.dropWhile Char.isDigit with
  | '.' :: fd =>
    decimalToRat (Int.ofNat (digitsToNat ip * 10 ^ fd.length + digitsToNat fd))
      (-(Int.ofNat fd.length))
  | _ => natToRat (digitsToNat ip)

/-- The fixed currency enum of `/\b(USD|EUR|GBP|SGD|AUD|CAD)\b/i`. -/
def currencyCodes : List (List Char) :=
  ["USD", "EUR", "GBP", "SGD", "AUD", "CAD"].map String.data

/-- One attempt of the currency pattern: a word boundary (the previous
character is not a word character — every code starts with a letter), a code
case-insensitively, and a word boundary after it. -/
def currencyAt (prevWord : Bool) (cs : List Char) : Option (List Char) :=
  if prevWord then none
  else
    currencyCodes.findSome? (fun code =>
      if startsWithCI cs code then
        match cs.drop code.length with
        | [] => some (cs.take code.length)
        | c :: _ => if isWordChar c then none else some (cs.take code.length)
      else none)

/-- Leftmost currency match, tracking whether the previous character is a
word character for the leading `\b`. -/
def matchCurrencyAux (prevWord : Bool) : List Char → Option (List Char)
  | [] => none
  | c :: rest =>
    match currencyAt prevWord (c :: rest) with
    | some cap => some cap
    | none => matchCurrencyAux (isWordChar c) rest

/-- Leftmost match of the currency pattern over a whole message. -/
def matchCurrency (cs : List Char) : Option (List Char) :=
  matchCurrencyAux false cs

/-- The lazy group of `/for (.+?)(?:\.|$)/i`: the shortest non-empty run of
non-newline characters ending right before a `.` or at the end of input. -/
def lazyCapture : List Char → Option (List Char)
  | [] => none
  | c :: rest =>
    if c == '\n' then none
    else
      match rest with
      | [] => some [c]
      | '.' :: _ => some [c]
      | _ =>
        match lazyCapture rest with
        | some cap => some (c :: cap)
        | none => none

/-- Leftmost match of `/for (.+?)(?:\.|$)/i`: find `for ` case-insensitively,
then take the lazy capture; if the capture fails the engine retries from the
next position. -/
def matchForDesc : List Char → Option (List Char)
  | [] => none
  | c :: rest =>
    if startsWithCI (c :: rest) "for ".data then
      match lazyCapture ((c :: rest).drop 4) with
      | some cap => some cap
      | none => matchForDesc rest
    else matchForDesc rest

/-- The character class of `/\b([a-zA-Z0-9_-]{10,})\b/`. -/
def isIdChar (c : Char) : Bool :=
  isWordChar c || c == '-'

/-- One attempt of the long-identifier pattern: a boundary before the first
class character, then greedily the longest class prefix of length at least 10
whose end also sits on a word boundary. -/
def idAt (prevWord : Bool) (cs : List Char) : Option (List Char) :=
  let run := cs.takeWhile isIdChar
  match run with
  | [] => none
  | c0 :: _ =>
    if prevWord == isWordChar c0 then none
    else
      ((List.range (run.length + 1)).reverse).findSome? (fun l =>
        if 10 ≤ l then
          match (cs.take l).getLast?, (cs.drop l).head? with
          | some lastc, some nextc =>
            if isWordChar lastc != isWordChar nextc then some (cs.take l) else none
          | some lastc, none => if isWordChar lastc then some (cs.take l) else none
          | none, _ => none
        else none)

/-- Leftmost long-identifier match, tracking the previous character. -/
def matchLongIdAux (prevWord : Bool) : List Char → Option (List Char)
  | [] => none
  | c :: rest =>
    match idAt prevWord (c :: rest) with
    | some cap => some cap
    | none => matchLongIdAux (isWordChar c) rest

/-- Leftmost match of the long-identifier pattern over a whole message. -/
def matchLongId (cs : List Char) : Option (List Char) :=
  matchLongIdAux false cs

/-- One attempt of `/(\d+)\s+(?:transactions|payments|items)/i`. -/
def limitAt (cs : List Char) : Option (List Char) :=
  let ds := cs.takeWhile Char.isDigit
  if ds.isEmpty then none
  else
    let r1 := cs.dropWhile Char.isDigit
    if (r1.takeWhile jsWs).isEmpty then none
    else
      let r2 := r1.dropWhile jsWs
      if ["transactions", "payments", "items"].any (fun w => startsWithCI r2 w.data) then
        some ds
      else none

/-- Leftmost match of the limit pattern. -/
def matchLimit : List Char → Option (List Char)
  | [] => none
  | c :: rest =>
    match limitAt (c :: rest) with
    | some cap => some cap
    | none => matchLimit rest

/-- The extracted argument object; a field the extractor does not set is
absent (`none`). -/
structure ExtractedParams where
  amount : Option ℚ := none
  currency : Option String := none
  description : Option String := none
  payment_id : Option String := none
  limit : Option ℕ := none
deriving DecidableEq, Repr

/-- `extractParametersFromMessage`: keyword extraction keyed off substrings
of the tool name — `payment` tools get amount/currency/description, `status`
or `payment` tools get a long identifier, `list` tools get a limit
(default 10). -/
def extractParametersFromMessage (message : String) (tool : Tool) : ExtractedParams :=
  let lowerMessage := jsToLower message
  let p0 : ExtractedParams := {}
  let p1 :=
    if jsIncludes tool.name "payment" then
      let pa :=
        match matchAmount message.data with
        | some cap => { p0 with amount := some (parseFloatCap cap) }
        | none => p0
      let pb :=
        match matchCurrency message.data with
        | some cap => { pa with currency := some (jsToUpper ⟨cap⟩) }
        | none => { pa with currency := some "USD" }
      if jsIncludes lowerMessage "for " then
        match matchForDesc message.data with
        | some cap => { pb with description := some (jsTrim ⟨cap⟩) }
        | none => pb
      else pb
    else p0
  let p2 :=
    if jsIncludes tool.name "status" || jsIncludes tool.name "payment" then
      match matchLongId message.data with
      | some cap => { p1 with payment_id := some ⟨cap⟩ }
      | none => p1
    else p1
  if jsIncludes tool.name "list" then
    match matchLimit message.data with
    | some ds => { p2 with limit := some (digitsToNat ds) }
    | none => { p2 with limit := some 10 }
  else p2


/-- Observation functions on events. -/
def eventTime : WorkerEvent → ℕ
  | .data t _ => t
  | .exit t _ => t

/-- Whether an event is a process exit. -/
def isExitEvent : WorkerEvent → Bool
  | .exit _ _ => true
  | .data _ _ => false

/-- The `create_payment` tool of the hard-coded registry. -/
def cpTool : Tool :=
  { name := "create_payment", description := "Create a new payment transaction" }

/-- A connected client holding the hard-coded tool set, with stdin present. -/
def connSt : ClientState :=
  { isConnected := true, tools := fallbackTools, stdinAvailable := true }

/-- A well-formed discovery response frame for a single tool `t1`, as a
worker would write it: an `id`/`result` response with no `method` member. -/
def discoveryResponseT1 : String :=
  "\x7b\"jsonrpc\": \"2.0\", \"id\": 1, \"result\": \x7b\"tools\": [\x7b\"name\": \"t1\", \"description\": \"demo\", \"inputSchema\": \x7b\"type\": \"object\"\x7d\x7d]\x7d\x7d"

/-- A frame that carries `method: 'tools/list'` together with a `result`, the
only shape `handleMCPMessage` reacts to. -/
def methodResultLine : String :=
  "\x7b\"method\": \"tools/list\", \"result\": \x7b\"tools\": [\x7b\"name\": \"t9\", \"description\": \"d\"\x7d]\x7d\x7d"

/-- A line that `JSON.parse` rejects. -/
def badLine : String := "\x7boops"

/-- Modelled from the spec: membership in the exact-name tier as the spec
words it — the lowercased name is a substring of the query, "or [the] 
alphanumeric-stripped name is a substring of the alphanumeric-stripped
query".  Stated for comparison against the source's `exactNameTier`. -/
def specExactNameMember (tool : Tool) (query : String) : Bool :=
  let lowerQuery := jsToLower query
  jsIncludes lowerQuery (jsToLower tool.name) ||
  jsIncludes (jsStripNonAlnum lowerQuery) (jsStripNonAlnum (jsToLower tool.name))

/-- A syntactically valid matching success frame (used as late traffic). -/
def lateSuccessLine : String :=
  "\x7b\"jsonrpc\": \"2.0\", \"id\": 0, \"result\": \x7b\"ok\": true\x7d\x7d"

/-- A matching frame with neither `result` nor `error`. -/
def deadFrameLine : String :=
  "\x7b\"jsonrpc\": \"2.0\", \"id\": 0\x7d"

theorem startsWithL_iff (nd : List Char) :
    ∀ hay, startsWithL hay nd = true ↔ ∃ rest, hay = nd ++ rest := by
  induction nd with
  | nil =>
    intro hay
    simp [startsWithL]
  | cons b bs ih =>
    intro hay
    cases hay with
    | nil => simp [startsWithL]
    | cons a as =>
      rw [startsWithL]
      simp only [Bool.and_eq_true, beq_iff_eq, ih as, List.cons_append, List.cons_eq_cons]
      constructor
      · rintro ⟨rfl, rest, rfl⟩
        exact ⟨rest, rfl, rfl⟩
      · rintro ⟨rest, h1, h2⟩
        exact ⟨h1, rest, h2⟩

theorem containsL_iff (nd : List Char) :
    ∀ hay, containsL hay nd = true ↔ ∃ p s, hay = p ++ (nd ++ s) := by
  intro hay
  induction hay with
  | nil =>
    rw [containsL, startsWithL_iff]
    constructor
    · rintro ⟨rest, h⟩
      exact ⟨[], rest, h⟩
    · rintro ⟨p, s, h⟩
      obtain ⟨hp, hns⟩ := List.append_eq_nil.mp h.symm
      exact ⟨s, hns.symm⟩
  | cons a as ih =>
    rw [containsL]
    simp only [Bool.or_eq_true, startsWithL_iff, ih]
    constructor
    · rintro (⟨rest, h⟩ | ⟨p, s, h⟩)
      · exact ⟨[], rest, by simpa using h⟩
      · exact ⟨a :: p, s, by simp [h]⟩
    · rintro ⟨p, s, h⟩
      cases p with
      | nil => exact Or.inl ⟨s, by simpa using h⟩
      | cons x xs =>
        rw [List.cons_append, List.cons_eq_cons] at h
        exact Or.inr ⟨xs, s, h.2⟩

theorem containsL_map (f : Char → Char) (hay nd : List Char)
    (h : containsL hay nd = true) : containsL (hay.map f) (nd.map f) = true := by
  rw [containsL_iff] at h ⊢
  obtain ⟨p, s, rfl⟩ := h
  exact ⟨p.map f, s.map f, by simp⟩

theorem jsIncludes_toLower (q nd : String) (h : jsIncludes q nd = true) :
    jsIncludes (jsToLower q) (jsToLower nd) = true := by
  simpa [jsIncludes, jsToLower] using containsL_map Char.toLower q.data nd.data h

theorem runCall_exits (toolName : String) (tid : ℚ) (deadline : ℕ) :
    ∀ events : List WorkerEvent, events.all isExitEvent = true →
      runCall toolName tid deadline events = some (timeoutResult toolName, deadline) := by
  intro events h
  induction events with
  | nil => rfl
  | cons e rest ih =>
    rw [List.all_cons, Bool.and_eq_true] at h
    cases e with
    | exit t c => rw [runCall]; exact ih h.2
    | data t c => simp [isExitEvent] at h

theorem runCall_late (toolName : String) (tid : ℚ) (deadline : ℕ) :
    ∀ events : List WorkerEvent,
      events.all (fun e => decide (deadline ≤ eventTime e)) = true →
      runCall toolName tid deadline events = some (timeoutResult toolName, deadline) := by
  intro events h
  induction events with
  | nil => rfl
  | cons e rest ih =>
    rw [List.all_cons, Bool.and_eq_true] at h
    cases e with
    | exit t c => rw [runCall]; exact ih h.2
    | data t chunk =>
      have ht : deadline ≤ t := by simpa [eventTime] using h.1
      rw [runCall, if_neg (Nat.not_lt.mpr ht)]

theorem runCall_append_late (toolName : String) (tid : ℚ) (deadline : ℕ)
    (pre post : List WorkerEvent)
    (hpre : runCall toolName tid deadline pre = some (timeoutResult toolName, deadline))
    (hlate : post.all (fun e => decide (deadline ≤ eventTime e)) = true) :
    runCall toolName tid deadline (pre ++ post) = some (timeoutResult toolName, deadline) := by
  induction pre with
  | nil => simpa using runCall_late toolName tid deadline post hlate
  | cons e rest ih =>
    cases e with
    | exit t c =>
      rw [runCall] at hpre
      rw [List.cons_append, runCall]
      exact ih hpre
    | data t chunk =>
      rw [runCall] at hpre
      rw [List.cons_append, runCall]
      by_cases hlt : t < deadline
      · rw [if_pos hlt] at hpre ⊢
        cases hscan : scanChunk tid chunk with
        | none => rw [hscan] at hpre; exact ih hpre
        | some hit =>
          cases hit with
          | success r =>
            rw [hscan] at hpre
            have hpre' : some (successResult toolName r, t) =
                some (timeoutResult toolName, deadline) := hpre
            have := (Prod.mk.injEq _ _ _ _).mp (Option.some.inj hpre')
            exact absurd (this.2 ▸ hlt) (lt_irrefl deadline)
          | failure e2 =>
            rw [hscan] at hpre
            have hpre' : some (errorResponseResult toolName e2, t) =
                some (timeoutResult toolName, deadline) := hpre
            have := (Prod.mk.injEq _ _ _ _).mp (Option.some.inj hpre')
            exact absurd (this.2 ▸ hlt) (lt_irrefl deadline)
          | dead =>
            rw [hscan] at hpre
            have hpre' : (none : Option (ToolResult × ℕ)) =
                some (timeoutResult toolName, deadline) := hpre
            exact absurd hpre' (by simp)
      · rw [if_neg hlt]

theorem runCall_no_dead (toolName : String) (tid : ℚ) (deadline : ℕ) :
    ∀ events : List WorkerEvent, deadHitEvents tid deadline events = false →
      ∃ r rt, runCall toolName tid deadline events = some (r, rt) ∧
        r.content ≠ [] ∧ (r.isError = false → ∃ j, r = successResult toolName j) := by
  intro events h
  induction events with
  | nil =>
    exact ⟨timeoutResult toolName, deadline, rfl, by simp [timeoutResult],
      by simp [timeoutResult]⟩
  | cons e rest ih =>
    cases e with
    | exit t c =>
      rw [deadHitEvents] at h
      rw [runCall]
      exact ih h
    | data t chunk =>
      rw [deadHitEvents] at h
      rw [runCall]
      by_cases hlt : t < deadline
      · rw [if_pos hlt] at h ⊢
        cases hscan : scanChunk tid chunk with
        | none => rw [hscan] at h; exact ih h
        | some hit =>
          cases hit with
          | success r =>
            exact ⟨successResult toolName r, t, rfl, by simp [successResult],
              fun _ => ⟨r, rfl⟩⟩
          | failure e2 =>
            exact ⟨errorResponseResult toolName e2, t, rfl, by simp [errorResponseResult],
              by simp [errorResponseResult]⟩
          | dead =>
            rw [hscan] at h
            exact absurd h (by simp)
      · rw [if_neg hlt] at h ⊢
        exact ⟨timeoutResult toolName, deadline, rfl, by simp [timeoutResult],
          by simp [timeoutResult]⟩

theorem executeTool_run (st : ClientState) (toolName : String) (params : Json)
    (ct : ℕ) (events : List WorkerEvent)
    (hc : st.isConnected = true)
    (hf : (st.tools.find? (fun t => t.name == toolName)).isSome = true)
    (hs : st.stdinAvailable = true) :
    executeTool st toolName params ct events =
      runCall toolName (natToRat ct) (ct + 10000) events := by
  obtain ⟨tool, htool⟩ := Option.isSome_iff_exists.mp hf
  simp [executeTool, hc, hs, htool]

/-- C1 (counterexample): the claim ties the timeout to a caller-supplied
`timeoutMs`, but `executeTool` takes no timeout argument — against a silent
worker a call issued at time `0` resolves at the fixed `10000` ms deadline,
not at a requested `10` ms. -/
theorem executeTool_fixed_timeout_not_caller_supplied :
    executeTool connSt "create_payment" (Json.obj []) 0 [] =
      some (timeoutResult "create_payment", 10000) ∧ (10000 : ℕ) ≠ 10 := by
  constructor
  · decide
  · decide

/-- C1 (amended): against a worker that never writes to stdout, `executeTool`
always resolves — at the fixed `callTime + 10000` deadline — with the
`isError : true` timeout result carrying the human-readable timeout message;
it neither throws nor hangs. -/
theorem executeTool_silent_worker_times_out (st : ClientState) (toolName : String)
    (params : Json) (ct : ℕ)
    (hc : st.isConnected = true)
    (hf : (st.tools.find? (fun t => t.name == toolName)).isSome = true)
    (hs : st.stdinAvailable = true) :
    executeTool st toolName params ct [] = some (timeoutResult toolName, ct + 10000) ∧
    (timeoutResult toolName).isError = true := by
  refine ⟨?_, rfl⟩
  rw [executeTool_run st toolName params ct [] hc hf hs]
  rfl

/-- C1 witness: the amended statement applied to a connected client at call
time `0`. -/
theorem executeTool_silent_worker_times_out_witness :
    executeTool connSt "create_payment" (Json.obj []) 0 [] =
      some (timeoutResult "create_payment", 0 + 10000) ∧
    (timeoutResult "create_payment").isError = true :=
  executeTool_silent_worker_times_out connSt "create_payment" (Json.obj []) 0
    (by decide) (by decide) (by decide)

/-- C2: two tool invocations issued in the same millisecond carry the same
request id (`Date.now()`), and the discovery call always uses the constant
id 1 — duplicate ids among simultaneously outstanding calls, contradicting
the uniqueness invariant. -/
theorem concurrent_calls_share_request_id :
    requestId (executeToolRequest "create_payment" (Json.obj []) 1700000000000) =
      requestId (executeToolRequest "get_payment_status" (Json.obj []) 1700000000000) ∧
    requestId (executeToolRequest "create_payment" (Json.obj []) 1) =
      requestId discoverRequest ∧
    requestId discoverRequest = some (natToRat 1) := by
  refine ⟨by decide, by decide, by decide⟩

/-- C4 (counterexample): with calls `A` (issued at 0) and `B` (issued at 3)
outstanding and the worker exiting at time 5 with code 1, both calls still
resolve only at their own `+10000` deadlines with the timeout result — not
before their deadlines and not with a channel-closed error. -/
theorem worker_exit_leaves_calls_pending :
    executeTool connSt "create_payment" (Json.obj []) 0 [.exit 5 1] =
      some (timeoutResult "create_payment", 10000) ∧
    executeTool connSt "get_payment_status" (Json.obj []) 3 [.exit 5 1] =
      some (timeoutResult "get_payment_status", 10003) ∧
    ¬ (10000 : ℕ) < 0 + 10000 := by
  refine ⟨by decide, by decide, by decide⟩

/-- C4 (amended): a worker exit does not settle a pending call at all — the
`close` handler only clears the connection state — so over any trace of
exit events every outstanding call resolves exactly at its own 10-second
deadline with the timeout result. -/
theorem exit_trace_resolves_at_deadline (st : ClientState) (toolName : String)
    (params : Json) (ct : ℕ) (events : List WorkerEvent)
    (hc : st.isConnected = true)
    (hf : (st.tools.find? (fun t => t.name == toolName)).isSome = true)
    (hs : st.stdinAvailable = true)
    (hexit : events.all isExitEvent = true) :
    executeTool st toolName params ct events = some (timeoutResult toolName, ct + 10000) := by
  rw [executeTool_run st toolName params ct events hc hf hs]
  exact runCall_exits toolName (natToRat ct) (ct + 10000) events hexit

/-- C4 witness: the amended statement applied to the two outstanding calls of
the scenario, over the exit-at-5 trace. -/
theorem exit_trace_resolves_at_deadline_witness :
    executeTool connSt "create_payment" (Json.obj []) 0 [.exit 5 1] =
      some (timeoutResult "create_payment", 0 + 10000) ∧
    executeTool connSt "get_payment_status" (Json.obj []) 3 [.exit 5 1] =
      some (timeoutResult "get_payment_status", 3 + 10000) :=
  ⟨exit_trace_resolves_at_deadline connSt "create_payment" (Json.obj []) 0 [.exit 5 1]
      (by decide) (by decide) (by decide) (by decide),
   exit_trace_resolves_at_deadline connSt "get_payment_status" (Json.obj []) 3 [.exit 5 1]
      (by decide) (by decide) (by decide) (by decide)⟩

/-- C5: after a discovery exchange in which the worker answers with a
well-formed `{id, result: {tools: [{name: "t1", ...}]}}` response frame, the
held set is still the hard-coded fallback list — `discoverTools` replaced the
set without awaiting the response, and `handleMCPMessage` ignores the frame
because it carries no `method` member — so `findRelevantTools "t1 please"`
returns `[]`, not the tool `t1`.  Only a frame that redundantly carries
`method: 'tools/list'` next to a `result` would be consumed. -/
theorem discovery_response_not_consumed :
    jsonOk discoveryResponseT1 = true ∧
    handleMCPOutput (discoverTools []) discoveryResponseT1 = fallbackTools ∧
    (fallbackTools.map Tool.name).contains "t1" = false ∧
    findRelevantTools (handleMCPOutput (discoverTools []) discoveryResponseT1) "t1 please" = [] ∧
    handleMCPOutput (discoverTools []) methodResultLine = [{ name := "t9", description := "d" }] := by
  refine ⟨by decide, by decide, by decide, by decide, by decide⟩

/-- C9: the `connect` launch embeds the credential values in the spawned
`docker` argument list (`-e NAME=value`): launches differing only in the
secret produce different argument lists, and the secret value occurs verbatim
in an argument — while the stored MCP server configuration's `args` hold the
variable names only. -/
theorem connect_embeds_credentials_in_argv :
    connectSpawnArgs "tzp_key" "tzp_secret_1" ≠ connectSpawnArgs "tzp_key" "tzp_secret_2" ∧
    (connectSpawnArgs "tzp_key" "tzp_secret_1").contains "TAZAPAY_API_SECRET=tzp_secret_1" = true ∧
    mcpServerConfigArgs =
      ["run", "--rm", "-i", "-e", "TAZAPAY_API_KEY", "-e", "TAZAPAY_API_SECRET",
       "tazapay/tazapay-mcp-server:latest"] := by
  refine ⟨by decide, by decide, by decide⟩

/-- C10 (counterexample): a pre-deadline matching frame with neither a truthy
`result` nor a truthy `error` clears the timer and detaches the listener
without resolving, so the promise never fulfills (`none` in the model) —
`executeTool` is not total at the public interface. -/
theorem matching_frame_without_result_never_resolves :
    executeTool connSt "create_payment" (Json.obj []) 0 [.data 5 deadFrameLine] = none := by
  decide

/-- C10 (amended): provided no pre-deadline matching frame lacks both
`result` and `error`, `executeTool` always fulfills with a non-empty content
array, and `isError` is false only on the success-response path — every
failure path carries `isError : true`. -/
theorem executeTool_resolves_without_dead_frame (st : ClientState) (toolName : String)
    (params : Json) (ct : ℕ) (events : List WorkerEvent)
    (hnd : deadHitEvents (natToRat ct) (ct + 10000) events = false) :
    ∃ r rt, executeTool st toolName params ct events = some (r, rt) ∧
      r.content ≠ [] ∧ (r.isError = false → ∃ j, r = successResult toolName j) := by
  by_cases hc : st.isConnected = false
  · exact ⟨caughtResult toolName "MCP server not connected", ct,
      by simp [executeTool, hc], by simp [caughtResult], by simp [caughtResult]⟩
  · cases hfind : st.tools.find? (fun t => t.name == toolName) with
    | none =>
      exact ⟨caughtResult toolName ("Tool " ++ toolName ++ " not found"), ct,
        by simp [executeTool, hc, hfind], by simp [caughtResult], by simp [caughtResult]⟩
    | some tool =>
      by_cases hs : st.stdinAvailable = false
      · exact ⟨notAvailableResult toolName, ct,
          by simp [executeTool, hc, hfind, hs], by simp [notAvailableResult],
          by simp [notAvailableResult]⟩
      · obtain ⟨r, rt, h1, h2, h3⟩ :=
          runCall_no_dead toolName (natToRat ct) (ct + 10000) events hnd
        exact ⟨r, rt, by simp [executeTool, hc, hfind, hs, h1], h2, h3⟩

/-- C10 witness: the amended statement applied to a connected client with an
empty trace. -/
theorem executeTool_resolves_without_dead_frame_witness :
    ∃ r rt, executeTool connSt "create_payment" (Json.obj []) 0 [] = some (r, rt) ∧
      r.content ≠ [] ∧ (r.isError = false → ∃ j, r = successResult "create_payment" j) :=
  executeTool_resolves_without_dead_frame connSt "create_payment" (Json.obj []) 0 []
    (by decide)

/-- C3: a call resolves at most once — if the pre-deadline traffic left the
call to resolve by timeout, then any frames arriving at or after the deadline
(including a matching success response) are silently discarded: the outcome
is still the timeout error resolved at the deadline, identical to the outcome
with no late traffic at all. -/
theorem late_matching_frame_keeps_timeout_result (st : ClientState) (toolName : String)
    (params : Json) (ct : ℕ) (pre post : List WorkerEvent)
    (hc : st.isConnected = true)
    (hf : (st.tools.find? (fun t => t.name == toolName)).isSome = true)
    (hs : st.stdinAvailable = true)
    (hpre : executeTool st toolName params ct pre = some (timeoutResult toolName, ct + 10000))
    (hlate : post.all (fun e => decide (ct + 10000 ≤ eventTime e)) = true) :
    executeTool st toolName params ct (pre ++ post) =
      some (timeoutResult toolName, ct + 10000) ∧
    executeTool st toolName params ct (pre ++ post) =
      executeTool st toolName params ct pre := by
  rw [executeTool_run st toolName params ct pre hc hf hs] at hpre
  rw [executeTool_run st toolName params ct (pre ++ post) hc hf hs,
    executeTool_run st toolName params ct pre hc hf hs]
  have h := runCall_append_late toolName (natToRat ct) (ct + 10000) pre post hpre hlate
  exact ⟨h, h.trans hpre.symm⟩

/-- C3 witness: a matching success frame arriving at 10500 ms, after the
10000 ms deadline of a call issued at 0, leaves the timeout result in place. -/
theorem late_matching_frame_keeps_timeout_result_witness :
    executeTool connSt "create_payment" (Json.obj []) 0
      ([] ++ [.data 10500 lateSuccessLine]) =
      some (timeoutResult "create_payment", 0 + 10000) ∧
    executeTool connSt "create_payment" (Json.obj []) 0
      ([] ++ [.data 10500 lateSuccessLine]) =
      executeTool connSt "create_payment" (Json.obj []) 0 [] :=
  late_matching_frame_keeps_timeout_result connSt "create_payment" (Json.obj []) 0
    [] [.data 10500 lateSuccessLine]
    (by decide) (by decide) (by decide) (by decide) (by decide)

/-- C6 (counterexample): for the tool named `create_payment` and the query
`"create payment"`, the spec's membership condition for the exact-name tier
holds (the alphanumeric-stripped name `createpayment` is a substring of the
stripped query), yet the source's exact-name tier is empty — the source
strips the query only and tests it against the unstripped name, in the
opposite direction — and the query is answered by the keyword tier instead. -/
theorem spec_name_tier_membership_mismatch :
    specExactNameMember cpTool "create payment" = true ∧
    exactNameTier [cpTool] "create payment" = [] ∧
    findRelevantTools [cpTool] "create payment" = [cpTool] := by
  refine ⟨by decide, by decide, by decide⟩

/-- C6 (amended): `findRelevantTools` returns the exact-name tier alone
whenever it is non-empty, where a tool is in that tier iff its lowercased
name is a substring of the lowercased query or its lowercased name contains
the alphanumeric-stripped lowercased query; in particular every query
containing the literal substring `create_payment` makes a tool of that name
an exact-name match and returns that tier only, never reaching the
description or keyword tiers. -/
theorem name_tier_short_circuit :
    (∀ (tools : List Tool) (q : String), exactNameTier tools q ≠ [] →
      findRelevantTools tools q = exactNameTier tools q) ∧
    (∀ (tools : List Tool) (q : String) (t : Tool), t ∈ tools →
      t.name = "create_payment" → jsIncludes q "create_payment" = true →
      findRelevantTools tools q = exactNameTier tools q ∧ t ∈ exactNameTier tools q) := by
  have precedence : ∀ (tools : List Tool) (q : String), exactNameTier tools q ≠ [] →
      findRelevantTools tools q = exactNameTier tools q := by
    intro tools q hne
    have hemp : (exactNameTier tools q).isEmpty = false := by
      cases hisem : (exactNameTier tools q).isEmpty
      · rfl
      · exact absurd (List.isEmpty_iff.mp hisem) hne
    simp only [findRelevantTools, hemp, Bool.false_eq_true, if_false]
  refine ⟨precedence, fun tools q t ht hn hq => ?_⟩
  have hlq : jsIncludes (jsToLower q) (jsToLower t.name) = true := by
    rw [hn]
    have h := jsIncludes_toLower q "create_payment" hq
    have e : jsToLower "create_payment" = "create_payment" := by decide
    rwa [e] at h
  have hmem : t ∈ exactNameTier tools q := by
    simp only [exactNameTier]
    exact List.mem_filter.mpr ⟨ht, by rw [hlq, Bool.true_or]⟩
  exact ⟨precedence tools q (List.ne_nil_of_mem hmem), hmem⟩

/-- C6 witness: the amended statement applied to the singleton registry and a
query carrying the literal tool name. -/
theorem name_tier_short_circuit_witness :
    findRelevantTools [cpTool] "use create_payment now" =
      exactNameTier [cpTool] "use create_payment now" ∧
    cpTool ∈ exactNameTier [cpTool] "use create_payment now" :=
  name_tier_short_circuit.2 [cpTool] "use create_payment now" cpTool
    (by decide) (by decide) (by decide)

/-- C7 (counterexample): a tool whose name contains `payment` and also
`list` — e.g. `list_payment` — additionally receives the default
`limit: 10`, so its extraction from `"pay $45.50 for hosting"` is not exactly
the claimed three-field object. -/
theorem payment_list_tool_gains_limit :
    jsIncludes "list_payment" "payment" = true ∧
    extractParametersFromMessage "pay $45.50 for hosting"
        { name := "list_payment", description := "" } =
      { amount := some (mkRat 91 2), currency := some "USD",
        description := some "hosting", payment_id := none, limit := some 10 } ∧
    extractParametersFromMessage "pay $45.50 for hosting"
        { name := "list_payment", description := "" } ≠
      { amount := some (mkRat 91 2), currency := some "USD",
        description := some "hosting", payment_id := none, limit := none } := by
  refine ⟨by decide, by decide, by decide⟩

/-- C7 (amended): for every tool whose name contains `payment` but not
`list`, extraction from `"pay $45.50 for hosting"` yields exactly
`{amount: 45.50, currency: "USD", description: "hosting"}` — the amount from
the first dollar-amount pattern, `USD` by default since no enum code occurs,
and the free text after `for `; no identifier is found and no limit is set. -/
theorem payment_extraction_for_hosting (t : Tool)
    (hp : jsIncludes t.name "payment" = true)
    (hl : jsIncludes t.name "list" = false) :
    extractParametersFromMessage "pay $45.50 for hosting" t =
      { amount := some (mkRat 91 2), currency := some "USD",
        description := some "hosting", payment_id := none, limit := none } := by
  simp only [extractParametersFromMessage, hp, hl, Bool.or_true, if_true, if_false,
    Bool.false_eq_true]
  decide

/-- C7 witness: the amended statement applied to the registry's
`create_payment` tool. -/
theorem payment_extraction_for_hosting_witness :
    extractParametersFromMessage "pay $45.50 for hosting" cpTool =
      { amount := some (mkRat 91 2), currency := some "USD",
        description := some "hosting", payment_id := none, limit := none } :=
  payment_extraction_for_hosting cpTool (by decide) (by decide)

/-- C8 (counterexample): when one chunk carries an invalid JSON line followed
by a valid `tools/list` frame, the valid line is not parsed — the whole loop
sits in one `try`, so the first bad line aborts the rest of the chunk — while
the same valid line alone is parsed and routed. -/
theorem invalid_line_aborts_rest_of_chunk :
    jsonOk badLine = false ∧
    handleMCPOutput fallbackTools (badLine ++ "\n" ++ methodResultLine) = fallbackTools ∧
    handleMCPOutput fallbackTools methodResultLine = [{ name := "t9", description := "d" }] := by
  refine ⟨by decide, by decide, by decide⟩

/-- C8 (amended): an invalid JSON line is dropped with a diagnostic and is
not fatal, but it aborts the remaining lines of the same chunk: processing a
chunk whose lines are a well-formed prefix, a bad line, then anything, equals
processing the prefix alone.  Framing resumes with the next chunk. -/
theorem processLines_stops_at_first_invalid (tools : List Tool) (pre post : List String)
    (bad : String)
    (hpre : ∀ l ∈ pre, jsTrim l = "" ∨ (jsonParse l).isSome = true)
    (hbad1 : ¬ jsTrim bad = "") (hbad2 : (jsonParse bad).isSome = false) :
    processLines tools (pre ++ bad :: post) = processLines tools pre := by
  have hb : jsonParse bad = none := by
    cases hcase : jsonParse bad with
    | none => rfl
    | some m => rw [hcase] at hbad2; simp at hbad2
  induction pre generalizing tools with
  | nil =>
    rw [List.nil_append, processLines, processLines]
    rw [if_neg (by simpa [beq_iff_eq] using hbad1), hb]
  | cons l ls ih =>
    have hl := hpre l (List.mem_cons_self l ls)
    have hrest : ∀ x ∈ ls, jsTrim x = "" ∨ (jsonParse x).isSome = true :=
      fun x hx => hpre x (List.mem_cons_of_mem l hx)
    rw [List.cons_append, processLines, processLines]
    by_cases ht : jsTrim l = ""
    · have hbeq : (jsTrim l == "") = true := by simpa [beq_iff_eq] using ht
      rw [if_pos hbeq, if_pos hbeq]
      exact ih tools hrest
    · have hbne : ¬ ((jsTrim l == "") = true) := by simpa [beq_iff_eq] using ht
      rw [if_neg hbne, if_neg hbne]
      rcases hl with h | h
      · exact absurd h ht
      · obtain ⟨m, hm⟩ := Option.isSome_iff_exists.mp h
        rw [hm]
        exact ih (handleMCPMessage tools m) hrest

/-- C8 witness: the amended statement applied to a chunk holding one valid
frame, then a bad line, then a further line. -/
theorem processLines_stops_at_first_invalid_witness :
    processLines fallbackTools ([methodResultLine] ++ badLine :: [lateSuccessLine]) =
      processLines fallbackTools [methodResultLine] :=
  processLines_stops_at_first_invalid fallbackTools [methodResultLine] [lateSuccessLine]
    badLine (by decide) (by decide) (by decide)
